import Mathlib

/-!
Verification of the Remediation Orchestration Engine of the 508-Application
repository (files `parallel_remediation_manager` — `src/unnamed/part_000`,
lines 2486–3316 — and `src/ai_remediation_agent.js`).

The JavaScript source is shallowly embedded:
* job records, job results and remediation patches become Lean structures;
  JS fields that some object shapes leave `undefined` become `Option` fields;
* `ParallelRemediationManager.executeJobs` becomes a deterministic small-step
  transition function `schedStep` parameterised by a worker oracle (the
  outcome of each Completion Worker call) and by a "pick" stream resolving
  the `Promise.race` nondeterminism (which in-flight job settles first);
* `resolveDependencies` (depth-first topological sort with `visiting` /
  `visited` sets) becomes a fuel-indexed structural recursion (`visit`);
  the fuel `jobs.length + 1` strictly dominates the depth of the DFS stack,
  which grows by one fresh job id per nested call;
* `resolveConflicts`, `applyConflictResolution`, `mergeRemediations`,
  `resolveByCriteriaPriority`, `resolveByConfidence` and
  `AIRemediationAgent.applyRemediations` / `processIssueType` are embedded
  directly, including the JavaScript quirks that matter:
  `x || y` treats `0` and `-1 + 1` as falsy (`jsOrFalsy999`, `jsConfOr05`),
  `Array.prototype.sort` is stable and sorts in place (`stableSortBy`),
  `Array.prototype.join` renders `undefined` as the empty string.
-/

/-- One detected accessibility issue (payload of a Job; `executeJobs` never
inspects it, it is only handed to the Completion Worker). -/
structure Issue where
  criterion : String := ""
  description : String := ""
deriving DecidableEq, Repr

/-- A scheduled unit of work, as built by `createJobs`
(src/unnamed/part_000:2724-2746). `attempts` starts at 0 and is incremented
only when a failed attempt is retried. -/
structure Job where
  id : Nat
  type : String
  issues : List Issue := []
  priority : Nat := 1
  estimatedComplexity : Nat := 1
  dependencies : List String := []
  status : String := "pending"
  attempts : Nat := 0
  maxAttempts : Nat := 1
deriving DecidableEq, Repr

/-- A line-level remediation patch (Completion Worker output, and the shapes
produced by conflict resolution).  JS objects of several shapes flow through
the same arrays, so fields that may be `undefined` are `Option`s: the
`needs_review` placeholder built by the `manual` strategy, for example, has
no `lineNumber` and no `afterCode` at all. -/
structure Rem where
  status : String := "success"
  lineNumber : Option Nat := none
  beforeCode : Option String := none
  afterCode : Option String := none
  confidence : Option Rat := none
  explanation : Option String := none
  wcagCriterion : Option String := none
  jobId : Option Nat := none
  jobType : Option String := none
  mergedFrom : List (Option String) := []
  conflictType : Option String := none
  options : List Rem
  originalLine : Option String := none

instance : Inhabited Rem := ⟨{ options := [] }⟩

/-- Per-job outcome pushed into `results` by `executeJobs`.  The success
branch (line 2917) records the job's `type`; the failure branch (line 2809)
does not, hence `type : Option String`. -/
structure JobResult where
  jobId : Nat
  type : Option String := none
  status : String
  error : Option String := none
  remediations : List Rem := []

/-- State threaded through the depth-first `visit` closure of
`resolveDependencies` (src/unnamed/part_000:2842-2880): the output list and
the `visited` / `visiting` id sets. -/
structure TS where
  sorted : List Job := []
  visited : List Nat := []
  visiting : List Nat := []

/-- `visit` of `resolveDependencies` (src/unnamed/part_000:2848-2871).
A job already on the active `visiting` stack (a cycle) or already `visited`
is skipped; otherwise its dependencies are visited first (`forEach` over
`job.dependencies`, resolving each dependency type to the FIRST job of that
type via `jobs.find`), then the job is appended to `sorted`.
The `fuel` argument only bounds the recursion depth; each nested call pushes
a fresh id onto `visiting`, so `jobs.length + 1` units never run out. -/
def visit (jobs : List Job) : Nat → Job → TS → TS
  | 0, _, s => s
  | fuel + 1, job, s =>
    if s.visiting.contains job.id then s
    else if s.visited.contains job.id then s
    else
      let s1 : TS := ⟨s.sorted, s.visited, job.id :: s.visiting⟩
      let s2 := job.dependencies.foldl (fun (acc : TS) depType =>
        match jobs.find? (fun j => j.type == depType) with
        | some depJob => visit jobs fuel depJob acc
        | none => acc) s1
      ⟨s2.sorted ++ [job], job.id :: s2.visited, s2.visiting.erase job.id⟩

/-- `ParallelRemediationManager.resolveDependencies`
(src/unnamed/part_000:2842-2880): topological sort of the job list. -/
def resolveDependencies (jobs : List Job) : List Job :=
  (jobs.foldl
    (fun (s : TS) job => if s.visited.contains job.id then s else visit jobs (jobs.length + 1) job s)
    ⟨[], [], []⟩).sorted

/-- `ParallelRemediationManager.dependenciesMet`
(src/unnamed/part_000:2882-2893): every dependency type must already have a
SUCCESS result (a failed dependency never satisfies this). -/
def dependenciesMet (job : Job) (completedResults : List JobResult) : Bool :=
  job.dependencies.all (fun depType =>
    completedResults.any (fun result => result.status == "success" && result.type == some depType))

/-- State of the `executeJobs` loop (src/unnamed/part_000:2748-2840):
the shared `jobs` records (mutated in place by the JS), the ready queue and
the in-flight `processing` map (both hold job ids; the JS holds references
into `jobs`), the results accumulator and the completion counter. -/
structure SchedState where
  jobs : List Job
  queue : List Nat
  processing : List Nat
  results : List JobResult
  completedCount : Nat := 0

def findJob (jobs : List Job) (jid : Nat) : Option Job :=
  jobs.find? (fun j => j.id == jid)

/-- `job.status = 'processing'` at the start of `executeJob` (line 2897). -/
def markProcessing (jobs : List Job) (jid : Nat) : List Job :=
  jobs.map (fun j => if j.id == jid then { j with status := "processing" } else j)

/-- `job.attempts++; job.status = 'retrying'` (lines 2804-2805). -/
def bumpRetry (jobs : List Job) (jid : Nat) : List Job :=
  jobs.map (fun j => if j.id == jid then { j with attempts := j.attempts + 1, status := "retrying" } else j)

/-- The completion half of one `executeJobs` iteration (lines 2780-2835):
`Promise.race` settles ONE in-flight job — `pick` chooses which, modelling
the first-to-finish nondeterminism — and its outcome is classified.
`oracle jid attempts` is the Completion Worker outcome of that call
(`some rems` = `executeJob` resolved with these remediations, `none` = it
rejected: worker error or timeout).  On failure with attempts remaining the
job is re-queued at the front (`unshift`, line 2806); on exhausted attempts
a failed result with an EMPTY `remediations` array is pushed (lines
2809-2814).  The `findJob … = none` case mirrors the JS `job` being
`undefined`, which also falls into the failed-result branch. -/
def completeOne (oracle : Nat → Nat → Option (List Rem)) (pick : Nat) (s : SchedState) : SchedState :=
  match s.processing with
  | [] => s
  | _ :: _ =>
    let idx := pick % s.processing.length
    let jid := s.processing.getD idx 0
    let s1 := { s with processing := s.processing.eraseIdx idx,
                       completedCount := s.completedCount + 1 }
    match findJob s.jobs jid with
    | some job =>
      match oracle jid job.attempts with
      | some rems =>
        { s1 with results := s1.results ++
            [{ jobId := jid, type := some job.type, status := "success", remediations := rems }] }
      | none =>
        if job.attempts < job.maxAttempts then
          { s1 with jobs := bumpRetry s1.jobs jid, queue := jid :: s1.queue }
        else
          { s1 with results := s1.results ++
              [{ jobId := jid, status := "failed", error := some "Job execution failed", remediations := [] }] }
    | none =>
      { s1 with results := s1.results ++
          [{ jobId := jid, status := "failed", error := some "Job execution failed", remediations := [] }] }

/-- One micro-step of the `executeJobs` loop.  While the queue is non-empty
and fewer than `maxConcurrency` jobs are in flight, the inner `while` (lines
2760-2777) runs: shift the head job, dispatch it if its dependencies are
met, otherwise push it back (with a 100 ms sleep, irrelevant here).  Only
when that inner loop exits — concurrency saturated or queue empty — does the
code reach the `Promise.race` (line 2781) that processes one completion.
When both queue and processing are empty the outer loop has terminated and
the state is a fixpoint. -/
def schedStep (oracle : Nat → Nat → Option (List Rem)) (maxConcurrency : Nat) (pick : Nat)
    (s : SchedState) : SchedState :=
  match s.queue with
  | jid :: rest =>
    if s.processing.length < maxConcurrency then
      match findJob s.jobs jid with
      | some job =>
        if dependenciesMet job s.results then
          { s with queue := rest, processing := s.processing ++ [jid],
                   jobs := markProcessing s.jobs jid }
        else
          { s with queue := rest ++ [jid] }
      | none => { s with queue := rest ++ [jid] }
    else completeOne oracle pick s
  | [] =>
    if s.processing.isEmpty then s else completeOne oracle pick s

/-- Initial state of `executeJobs` on a batch: the queue is the
topologically ordered batch (line 2754), nothing in flight, no results. -/
def initState (jobs : List Job) : SchedState :=
  { jobs := jobs, queue := (resolveDependencies jobs).map Job.id,
    processing := [], results := [], completedCount := 0 }

/-- Run `executeJobs` for `picks.length` micro-steps; each element of
`picks` resolves the `Promise.race` choice of that step (ignored on
dispatch steps).  Quantifying theorems over all `picks` captures every
possible completion order and every point during execution. -/
def runSched (oracle : Nat → Nat → Option (List Rem)) (maxConcurrency : Nat)
    (s : SchedState) (picks : List Nat) : SchedState :=
  picks.foldl (fun st p => schedStep oracle maxConcurrency p st) s

/-! ## JavaScript primitives -/

/-- Does the character list `pat` occur at the start of `l`? -/
def subAtStart : List Char → List Char → Bool
  | [], _ => true
  | _ :: _, [] => false
  | p :: ps, c :: cs => p == c && subAtStart ps cs

/-- Does `pat` occur anywhere in `l`? -/
def subAnywhere (pat : List Char) : List Char → Bool
  | [] => subAtStart pat []
  | c :: cs => subAtStart pat (c :: cs) || subAnywhere pat cs

/-- `String.prototype.includes`. -/
def strIncludes (s pat : String) : Bool :=
  subAnywhere pat.toList s.toList

/-- `String.prototype.split('\n')` (splitting on a single newline). -/
def splitLinesAux : List Char → List Char → List String
  | [], acc => [String.mk acc.reverse]
  | c :: cs, acc =>
    if c = '\n' then String.mk acc.reverse :: splitLinesAux cs []
    else splitLinesAux cs (c :: acc)

def jsSplitNewline (s : String) : List String :=
  splitLinesAux s.toList []

/-- `Array.prototype.join('\n')` (no element is `undefined` where this is
used on line arrays). -/
def jsJoinNewline : List String → String
  | [] => ""
  | [s] => s
  | s :: rest => s ++ "\n" ++ jsJoinNewline rest

/-- Insert `x` into `l` AFTER every element `y` with `le y x` — the
insertion step of a stable sort. -/
def insertSorted (le : α → α → Bool) (x : α) : List α → List α
  | [] => [x]
  | y :: ys => if le y x then y :: insertSorted le x ys else x :: y :: ys

/-- Stable sort, modelling `Array.prototype.sort` (stable per ES2019;
`le a b` = "the comparator does not require `b` before `a`"). -/
def stableSortBy (le : α → α → Bool) (l : List α) : List α :=
  l.foldl (fun acc x => insertSorted le x acc) []

/-- JS `v || 0.5` on a confidence value: `undefined` AND `0` are falsy
(`(b.confidence || 0.5)`, lines 3073-3074 / 3142-3143 / 3091). -/
def jsConfOr05 (c : Option Rat) : Rat :=
  match c with
  | some q => if q = 0 then 1 / 2 else q
  | none => 1 / 2

/-- JS `i || 999` on an `indexOf` result: `0` (criterion FIRST in the list)
is falsy and becomes 999, while `-1` (criterion absent) is truthy and is
kept (lines 3058-3059). -/
def jsOrFalsy999 (i : Int) : Int :=
  if i = 0 then 999 else i

/-- `Array.prototype.indexOf` over the precedence list; `undefined`
criteria are simply not found. -/
def jsIndexOf (l : List String) (x : Option String) : Int :=
  match x with
  | some s =>
    match l.findIdx? (fun t => t == s) with
    | some i => (i : Int)
    | none => -1
  | none => -1

/-! ## Conflict resolution
(`ParallelRemediationManager`, src/unnamed/part_000:2951-3146) -/

/-- The fixed WCAG precedence list of `resolveByCriteriaPriority`
(lines 3045-3055). -/
def priorityOrder : List String :=
  ["3.1.1", "2.4.2", "1.3.1", "1.1.1", "3.3.2", "2.1.1", "2.4.4", "1.4.3", "4.1.2"]

/-- `resolveByCriteriaPriority` (lines 3043-3064): sort ascending by
`priorityOrder.indexOf(wcagCriterion) || 999` and take the first element.
(`sort` is in place: the caller's array ends up sorted too.) -/
def resolveByCriteriaPriority (remediations : List Rem) : Rem :=
  let sorted := stableSortBy
    (fun a b => decide (jsOrFalsy999 (jsIndexOf priorityOrder a.wcagCriterion)
                        ≤ jsOrFalsy999 (jsIndexOf priorityOrder b.wcagCriterion)))
    remediations
  sorted.headI

/-- `resolveByConfidence` (lines 3140-3146): highest `confidence || 0.5`
first, ties in encounter order (stable sort). -/
def resolveByConfidence (remediations : List Rem) : Rem :=
  let sorted := stableSortBy
    (fun a b => decide (jsConfOr05 b.confidence ≤ jsConfOr05 a.confidence))
    remediations
  sorted.headI

/-- `hasAttributeConflict` (lines 3128-3132): "simplified implementation",
always `false`. -/
def hasAttributeConflict (currentLine : Option String) (newLine : String)
    (previousChanges : List Rem) : Bool :=
  false

/-- `mergeAttributes` (lines 3134-3138): "simplified implementation" that
returns `newLine` unchanged — the current merged line is DISCARDED. -/
def mergeAttributes (currentLine : Option String) (newLine : String) : String :=
  newLine

/-- `attemptMerge` (lines 3105-3126).  `remediation.afterCode.includes('=')`
throws on an `undefined` afterCode; the surrounding `try` turns that into
`success: false`, modelled by the `none` cases. -/
def attemptMerge (currentLine : Option String) (remediation : Rem)
    (previousChanges : List Rem) : Option String :=
  match remediation.afterCode with
  | none => none
  | some ac =>
    if strIncludes ac "=" && !hasAttributeConflict currentLine ac previousChanges then
      some (mergeAttributes currentLine ac)
    else if previousChanges.all (fun c =>
        match c.afterCode with
        | some pc => strIncludes pc "="
        | none => false) then
      some ac
    else none

/-- `mergeRemediations` (lines 3066-3103).  `remediations.sort` sorts the
array IN PLACE, so the later `remediations[0]` is the highest-confidence
candidate.  The merged patch's `afterCode` is the running `mergedLine`;
`join('; ')` renders `undefined` explanations as empty strings. -/
def mergeRemediations (remediations : List Rem) (originalLine : Option String) : Rem :=
  let sortedRemediations := stableSortBy
    (fun a b => decide (jsConfOr05 b.confidence ≤ jsConfOr05 a.confidence))
    remediations
  let fin := sortedRemediations.foldl
    (fun (st : Option String × List Rem) r =>
      match attemptMerge st.1 r st.2 with
      | some res => (some res, st.2 ++ [r])
      | none => st)
    (originalLine, [])
  if fin.2.length > 0 then
    match sortedRemediations with
    | base :: _ =>
      { base with
        beforeCode := originalLine,
        afterCode := fin.1,
        confidence := some ((fin.2.map (fun r => jsConfOr05 r.confidence)).sum / (fin.2.length : Rat)),
        explanation := some ("Merged " ++ toString fin.2.length ++ " changes: "
          ++ String.intercalate "; " (fin.2.map (fun r => r.explanation.getD ""))),
        mergedFrom := fin.2.map (fun r => r.wcagCriterion),
        status := "merged" }
    | [] => resolveByConfidence remediations
  else resolveByConfidence remediations

/-- `applyConflictResolution` (lines 3017-3041).  The `manual` case builds a
review placeholder WITHOUT a `lineNumber`; an unknown strategy falls back to
`resolveByConfidence`. -/
def applyConflictResolution (conflictingRemediations : List Rem) (strategy : String)
    (originalLine : Option String) : Rem :=
  if strategy == "priority" then resolveByCriteriaPriority conflictingRemediations
  else if strategy == "merge" then mergeRemediations conflictingRemediations originalLine
  else if strategy == "confidence" then resolveByConfidence conflictingRemediations
  else if strategy == "manual" then
    { status := "needs_review", conflictType := some "line_conflict",
      options := conflictingRemediations, originalLine := originalLine }
  else resolveByConfidence conflictingRemediations

/-- One step of the flattening loop of `resolveConflicts` (lines
2957-2965): remediations of a successful job result are appended, tagged
with their job's id and type. -/
def collectStep (acc : List Rem) (result : JobResult) : List Rem :=
  if result.status == "success" then
    acc ++ result.remediations.map (fun r =>
      { r with jobId := some result.jobId, jobType := result.type })
  else acc

/-- Flattening loop of `resolveConflicts` (lines 2957-2965). -/
def collectSuccessRems (results : List JobResult) : List Rem :=
  results.foldl collectStep []

/-- `lineGroups.get(lineNum).push(...)` on a JS `Map`: groups keep first-
insertion order, later hits append to the existing group. -/
def insertGroup (gs : List (Option Nat × List Rem)) (k : Option Nat) (r : Rem) :
    List (Option Nat × List Rem) :=
  match gs with
  | [] => [(k, [r])]
  | (k', rs) :: t => if k' == k then (k', rs ++ [r]) :: t else (k', rs) :: insertGroup t k r

/-- One step of the grouping loop of `resolveConflicts` (lines 2969-2976):
only status-`success` remediations are grouped. -/
def groupStep (gs : List (Option Nat × List Rem)) (r : Rem) :
    List (Option Nat × List Rem) :=
  if r.status == "success" then insertGroup gs r.lineNumber r else gs

/-- Grouping loop of `resolveConflicts` (lines 2967-2977): status-`success`
remediations grouped by `lineNumber`. -/
def groupByLine (rems : List Rem) : List (Option Nat × List Rem) :=
  rems.foldl groupStep []

/-- `lines[lineNum - 1]` with a 1-based `lineNum`; `undefined` or 0 indices
read as `undefined` in JS. -/
def jsLineAt (lines : List String) (ln : Option Nat) : Option String :=
  match ln with
  | some n => if n = 0 then none else lines.get? (n - 1)
  | none => none

/-- One step of the conflict-resolution loop of `resolveConflicts` (lines
2982-3005): a single-patch group passes through, a multi-patch group is
replaced by the strategy's resolution. -/
def resolveStep (strategy : String) (lines : List String) (acc : List Rem)
    (kl : Option Nat × List Rem) : List Rem :=
  if kl.2.length == 1 then acc ++ kl.2
  else acc ++ [applyConflictResolution kl.2 strategy (jsLineAt lines kl.1)]

/-- `ParallelRemediationManager.resolveConflicts` (lines 2951-3015):
single-patch groups pass through, multi-patch groups are resolved by the
strategy, and finally every NON-success remediation is appended verbatim. -/
def resolveConflicts (results : List JobResult) (sourceHtml : String) (strategy : String) :
    List Rem :=
  let lines := jsSplitNewline sourceHtml
  let allRemediations := collectSuccessRems results
  let lineGroups := groupByLine allRemediations
  let resolvedConflicts := lineGroups.foldl (resolveStep strategy lines) []
  resolvedConflicts ++ allRemediations.filter (fun r => !(r.status == "success"))

/-! ## `AIRemediationAgent` (src/ai_remediation_agent.js) -/

/-- Outcome of `processIssueType`: the thrown/returned value plus how many
actual LLM worker calls were made. -/
structure PITResult where
  outcome : Except String (List Rem)
  workerCalls : Nat

def PITResult.failed (p : PITResult) : Bool :=
  match p.outcome with
  | Except.error _ => true
  | Except.ok _ => false

/-- The retry loop of `AIRemediationAgent.processIssueType`
(src/ai_remediation_agent.js:245-283), counted down by the remaining loop
iterations (`attempt` runs 1..maxRetries).  When the rate limiter denies a
call, the code does `await sleep(1000); continue;` — and `continue` in a
`for` loop still runs the `attempt++` update, so a denial CONSUMES an
attempt without calling the worker.  When the loop exits, the function
throws `Failed to process issue type … : lastError.message`; if every
iteration was denied, `lastError` is still `undefined` and reading
`.message` throws a TypeError — either way the call rejects. -/
def processAttempts (limiter : Nat → Bool) (worker : Nat → Except String (List Rem)) :
    Nat → Nat → Option String → Nat → PITResult
  | 0, _, lastError, calls =>
    ⟨Except.error (match lastError with
      | some m => "Failed to process issue type after maxRetries attempts: " ++ m
      | none => "TypeError: cannot read message of undefined lastError"), calls⟩
  | remaining + 1, attempt, lastError, calls =>
    if limiter attempt = false then
      processAttempts limiter worker remaining (attempt + 1) lastError calls
    else
      match worker attempt with
      | Except.ok rems => ⟨Except.ok rems, calls + 1⟩
      | Except.error e => processAttempts limiter worker remaining (attempt + 1) (some e) (calls + 1)

/-- `AIRemediationAgent.processIssueType` with `maxRetries` loop iterations;
`limiter a` is `rateLimiter.canMakeRequest()` at iteration `a`, `worker a`
the outcome of `callLLMAPI` + `parseRemediationResponse` there. -/
def processIssueType (maxRetries : Nat) (limiter : Nat → Bool)
    (worker : Nat → Except String (List Rem)) : PITResult :=
  processAttempts limiter worker maxRetries 1 none 0

/-- Return shape of `AIRemediationAgent.applyRemediations`
(src/ai_remediation_agent.js:777-805). -/
structure ApplyOutcome where
  modifiedHtml : String
  appliedCount : Nat
  errors : List String
  totalRemediations : Nat

/-- `AIRemediationAgent.applyRemediations` (src/ai_remediation_agent.js:
777-805): split into lines, keep status-`success` remediations sorted by
descending `lineNumber` (stable; an `undefined` lineNumber compares as a
NaN and is modelled as 0 — it ends up in the error branch regardless of
where it sorts), overwrite each in-range target line with `afterCode`
(`join` renders a stored `undefined` as ""), record an error for each
out-of-range line number, and re-join with newlines. -/
def applyRemStep (st : List String × Nat × List String) (r : Rem) :
    List String × Nat × List String :=
  match r.lineNumber with
  | some n =>
    if 1 ≤ n && n ≤ st.1.length then
      (st.1.set (n - 1) (r.afterCode.getD ""), st.2.1 + 1, st.2.2)
    else
      (st.1, st.2.1, st.2.2 ++ ["Invalid line number: " ++ toString n])
  | none => (st.1, st.2.1, st.2.2 ++ ["Invalid line number: undefined"])

def applyRemediations (sourceHtml : String) (remediations : List Rem) : ApplyOutcome :=
  let lines := jsSplitNewline sourceHtml
  let sortedRemediations := stableSortBy
    (fun a b => decide (b.lineNumber.getD 0 ≤ a.lineNumber.getD 0))
    (remediations.filter (fun r => r.status == "success"))
  let fin := sortedRemediations.foldl applyRemStep (lines, 0, [])
  { modifiedHtml := jsJoinNewline fin.1, appliedCount := fin.2.1,
    errors := fin.2.2, totalRemediations := sortedRemediations.length }

/-! ## Concrete instances used by the counterexamples and witnesses -/

/-- Worker oracle that rejects every call (always `WorkerError`/timeout). -/
def failOracle : Nat → Nat → Option (List Rem) := fun _ _ => none

/-- C2: job of type "a" whose worker always fails (one allowed attempt). -/
def jobA2 : Job := { id := 0, type := "a", maxAttempts := 1 }

/-- C2: job of type "b" depending on type "a". -/
def jobB2 : Job := { id := 1, type := "b", dependencies := ["a"], maxAttempts := 1 }

/-- C7: a single job allowed `maxAttempts = 2`. -/
def job7 : Job := { id := 0, type := "t", issues := [{}], maxAttempts := 2 }

/-- C7: worker that times out on the first call (attempts counter 0) and
succeeds on the second (attempts counter 1). -/
def oracle7 : Nat → Nat → Option (List Rem) := fun _ a => if a = 0 then none else some []

/-- C8: a job with `k` issues allowed `maxAttempts = m`. -/
def job8 (m k : Nat) : Job :=
  { id := 0, type := "t", issues := List.replicate k {}, maxAttempts := m }

/-- C3 counterexample: first job with duplicated type "a". -/
def c3a1 : Job := { id := 0, type := "a" }

/-- C3 counterexample: a job depending on type "a" — in the output it ends
up BEFORE the second "a"-typed job. -/
def c3b : Job := { id := 1, type := "b", dependencies := ["a"] }

/-- C3 counterexample: second job with duplicated type "a". -/
def c3a2 : Job := { id := 2, type := "a" }

/-- C3 witness: the dependency job. -/
def w3d : Job := { id := 0, type := "x" }

/-- C3 witness: the dependent job. -/
def w3j : Job := { id := 1, type := "y", dependencies := ["x"] }

/-- C4: two successful patches on the same line 1. -/
def c4r1 : Rem :=
  { lineNumber := some 1, afterCode := some "<a>one</a>",
    confidence := some ⟨9, 10, by decide, by decide⟩, wcagCriterion := some "1.1.1", options := [] }

def c4r2 : Rem :=
  { lineNumber := some 1, afterCode := some "<a>two</a>",
    confidence := some ⟨4, 5, by decide, by decide⟩, wcagCriterion := some "4.1.2", options := [] }

/-- C4: a single successful job result carrying both patches. -/
def c4res : JobResult :=
  { jobId := 0, type := some "t", status := "success", remediations := [c4r1, c4r2] }

/-- C5: candidate with criterion "3.1.1" — FIRST in `priorityOrder`. -/
def c5a : Rem := { lineNumber := some 4, wcagCriterion := some "3.1.1", options := [] }

/-- C5: candidate with criterion "2.4.2" — second in `priorityOrder`. -/
def c5b : Rem := { lineNumber := some 4, wcagCriterion := some "2.4.2", options := [] }

/-- C6: the original source line. -/
def c6orig : String := "<img src=\"x.jpg\">"

/-- C6: candidate adding an `alt` attribute (confidence 0.9). -/
def c6a : Rem :=
  { lineNumber := some 1,
    afterCode := some "<img src=\"x.jpg\" alt=\"photo\">",
    confidence := some ⟨9, 10, by decide, by decide⟩, wcagCriterion := some "1.1.1",
    explanation := some "add alt", options := [] }

/-- C6: candidate adding a `role` attribute (confidence 0.8). -/
def c6b : Rem :=
  { lineNumber := some 1,
    afterCode := some "<img src=\"x.jpg\" role=\"img\">",
    confidence := some ⟨4, 5, by decide, by decide⟩, wcagCriterion := some "4.1.2",
    explanation := some "add role", options := [] }

/-- C10 counterexample: a successful patch whose `afterCode` embeds a
newline. -/
def c10rem : Rem := { lineNumber := some 1, afterCode := some "x\ny", options := [] }

/-- C10 witness: a plain single-line replacement of line 2. -/
def w10rem : Rem := { lineNumber := some 2, afterCode := some "B", options := [] }

/-- C2: the livelock state reached after dispatching `jobA2`: `jobB2` is
alone in the queue, its dependency unmet, and concurrency is not
saturated — `schedStep` maps this state to itself for every pick. -/
def c2Live : SchedState :=
  { jobs := [{ jobA2 with status := "processing" }, jobB2], queue := [1], processing := [0],
    results := [], completedCount := 0 }

/-- C8: scheduler state with the single always-failing job queued, carrying
`a` consumed attempts. -/
def c8state (m k a c0 : Nat) (st : String) : SchedState :=
  { jobs := [{ job8 m k with attempts := a, status := st }], queue := [0], processing := [],
    results := [], completedCount := c0 }

/-- C8: the in-flight variant of `c8state`. -/
def c8inflight (m k a c0 : Nat) : SchedState :=
  { jobs := [{ job8 m k with attempts := a, status := "processing" }], queue := [],
    processing := [0], results := [], completedCount := c0 }

/-- C8: the failed result pushed on exhausted attempts — note the EMPTY
`remediations` array (line 2813 of src/unnamed/part_000). -/
def c8failedResult : JobResult :=
  { jobId := 0, status := "failed", error := some "Job execution failed", remediations := [] }

/-- C8: the terminal state of the always-failing single-job batch. -/
def c8done (m k c0 : Nat) : SchedState :=
  { jobs := [{ job8 m k with attempts := m, status := "processing" }], queue := [],
    processing := [], results := [c8failedResult], completedCount := c0 }

/-! ## Specification-side predicates for the topological-sort claim (C3) -/

def idsOf (jobs : List Job) : List Nat := jobs.map Job.id

/-- Invariants of the `visit` state: `visiting` holds distinct ids of jobs
of the batch, `visited` mirrors the ids of `sorted` (newest first), and
`sorted` holds distinct jobs of the batch. -/
def TSInv (jobs : List Job) (s : TS) : Prop :=
  (∀ x ∈ s.visiting, x ∈ idsOf jobs) ∧
  s.visiting.Nodup ∧
  s.visited = (s.sorted.map Job.id).reverse ∧
  (∀ j ∈ s.sorted, j ∈ jobs) ∧
  (s.sorted.map Job.id).Nodup

/-- `d` occurs strictly before `j` in `l`: some prefix of `l` contains `d`
but not `j`. -/
def Before (l : List Job) (d j : Job) : Prop :=
  ∃ p, p <+: l ∧ d ∈ p ∧ j ∉ p

/-- Every job already output comes after the (first-of-type) jobs it
depends on. -/
def DepsBefore (jobs : List Job) (s : TS) : Prop :=
  ∀ j ∈ s.sorted, ∀ t ∈ j.dependencies, ∀ d,
    jobs.find? (fun x => x.type == t) = some d → Before s.sorted d j

/-- Induction statement for `visit` at a given fuel: under the state
invariants, a rank function decreasing along (first-of-type) dependency
edges, strict rank dominance over the active `visiting` stack, and enough
fuel, `visit` preserves the invariants and ordering, restores `visiting`,
extends `sorted` as a prefix, and marks the job visited. -/
def VisitP (jobs : List Job) (rank : Nat → Nat) (fuel : Nat) : Prop :=
  ∀ (job : Job) (s : TS), job ∈ jobs → TSInv jobs s → DepsBefore jobs s →
    (∀ v ∈ s.visiting, rank job.id < rank v) →
    (jobs.length + 1 ≤ fuel + s.visiting.length) →
    TSInv jobs (visit jobs fuel job s) ∧
    DepsBefore jobs (visit jobs fuel job s) ∧
    (visit jobs fuel job s).visiting = s.visiting ∧
    s.sorted <+: (visit jobs fuel job s).sorted ∧
    job.id ∈ (visit jobs fuel job s).visited ∧
    (∀ x ∈ (visit jobs fuel job s).visited, x ∈ s.visited ∨ x ∉ s.visiting)

/-- The corresponding statement for the dependency `foldl` inside `visit`. -/
def VisitListP (jobs : List Job) (rank : Nat → Nat) (fuel : Nat) : Prop :=
  ∀ (deps : List String) (s : TS), TSInv jobs s → DepsBefore jobs s →
    (∀ t ∈ deps, ∀ d, jobs.find? (fun x => x.type == t) = some d →
      ∀ v ∈ s.visiting, rank d.id < rank v) →
    (jobs.length + 1 ≤ fuel + s.visiting.length) →
    TSInv jobs (deps.foldl (fun (acc : TS) depType =>
      match jobs.find? (fun j => j.type == depType) with
      | some depJob => visit jobs fuel depJob acc
      | none => acc) s) ∧
    DepsBefore jobs (deps.foldl (fun (acc : TS) depType =>
      match jobs.find? (fun j => j.type == depType) with
      | some depJob => visit jobs fuel depJob acc
      | none => acc) s) ∧
    (deps.foldl (fun (acc : TS) depType =>
      match jobs.find? (fun j => j.type == depType) with
      | some depJob => visit jobs fuel depJob acc
      | none => acc) s).visiting = s.visiting ∧
    s.sorted <+: (deps.foldl (fun (acc : TS) depType =>
      match jobs.find? (fun j => j.type == depType) with
      | some depJob => visit jobs fuel depJob acc
      | none => acc) s).sorted ∧
    (∀ t ∈ deps, ∀ d, jobs.find? (fun x => x.type == t) = some d →
      d.id ∈ (deps.foldl (fun (acc : TS) depType =>
        match jobs.find? (fun j => j.type == depType) with
        | some depJob => visit jobs fuel depJob acc
        | none => acc) s).visited) ∧
    (∀ x ∈ (deps.foldl (fun (acc : TS) depType =>
      match jobs.find? (fun j => j.type == depType) with
      | some depJob => visit jobs fuel depJob acc
      | none => acc) s).visited, x ∈ s.visited ∨ x ∉ s.visiting)

/-! ## Scheduler lemmas and claims C1, C2, C7, C8 -/

theorem eraseIdx_length_le : ∀ (l : List α) (i : Nat), (l.eraseIdx i).length ≤ l.length := by
  intro l
  induction l with
  | nil => intro i; simp [List.eraseIdx]
  | cons a t ih =>
    intro i
    cases i with
    | zero => simp [List.eraseIdx]
    | succ j => simpa [List.eraseIdx] using ih j

theorem completeOne_processing_le (oracle : Nat → Nat → Option (List Rem)) (pick : Nat)
    (s : SchedState) : (completeOne oracle pick s).processing.length ≤ s.processing.length := by
  obtain ⟨jobs, queue, processing, results, cc⟩ := s
  cases processing with
  | nil => simp [completeOne]
  | cons a t =>
    have he := eraseIdx_length_le (a :: t) (pick % (a :: t).length)
    simp only [completeOne]
    split
    · split
      · simpa using he
      · split <;> simpa using he
    · simpa using he

theorem schedStep_processing_le (oracle : Nat → Nat → Option (List Rem))
    (maxC pick : Nat) (s : SchedState) (h : s.processing.length ≤ maxC) :
    (schedStep oracle maxC pick s).processing.length ≤ maxC := by
  unfold schedStep
  cases hq : s.queue with
  | nil =>
    by_cases he : s.processing.isEmpty
    · simpa [he] using h
    · simpa [he] using (completeOne_processing_le oracle pick s).trans h
  | cons jid rest =>
    by_cases hlt : s.processing.length < maxC
    · simp only [hlt, if_true]
      rcases findJob s.jobs jid with _ | job
      · simpa using h
      · by_cases hdep : dependenciesMet job s.results <;> simp [hdep, h] <;> omega
    · simpa [hlt] using (completeOne_processing_le oracle pick s).trans h

theorem runSched_processing_le (oracle : Nat → Nat → Option (List Rem))
    (maxC : Nat) (picks : List Nat) (s : SchedState) (h : s.processing.length ≤ maxC) :
    (runSched oracle maxC s picks).processing.length ≤ maxC := by
  induction picks generalizing s with
  | nil => simpa [runSched]
  | cons p ps ih =>
    have h1 := schedStep_processing_le oracle maxC p s h
    simpa [runSched] using ih (schedStep oracle maxC p s) h1

/-- C1.  For every batch of jobs, every worker-outcome oracle, every
concurrency limit and every completion order, and at EVERY point during
execution (every state reached from `initState` after any number of
micro-steps), the number of in-flight Completion Worker calls — the size of
the `processing` map — never exceeds `maxConcurrency`: the inner dispatch
loop of `executeJobs` (src/unnamed/part_000:2760) only starts a job while
`processing.size < maxConcurrency`, and every other transition only shrinks
or preserves `processing`. -/
theorem C1_scheduler_concurrency_bound (oracle : Nat → Nat → Option (List Rem))
    (maxConcurrency : Nat) (jobs : List Job) (picks : List Nat) :
    (runSched oracle maxConcurrency (initState jobs) picks).processing.length ≤ maxConcurrency := by
  exact runSched_processing_le oracle maxConcurrency picks (initState jobs) (by simp [initState])

theorem c2Live_fixpoint (p : Nat) : schedStep failOracle 3 p c2Live = c2Live := rfl

theorem runSched_c2Live (picks : List Nat) : runSched failOracle 3 c2Live picks = c2Live := by
  induction picks with
  | nil => rfl
  | cons p ps ih =>
    calc runSched failOracle 3 c2Live (p :: ps)
        = runSched failOracle 3 (schedStep failOracle 3 p c2Live) ps := rfl
      _ = runSched failOracle 3 c2Live ps := by rw [c2Live_fixpoint]
      _ = c2Live := ih

/-- C2.  The code violates the claim: take jobs `A` (type "a", worker
always failing, one allowed attempt) and `B` (depends on type "a").  After
the first micro-step dispatches `A`, the state is a FIXPOINT of the loop:
`B` is shifted, its dependency has no success result, so it is pushed back
and the inner `while (processing.size < maxConcurrency && queue.length>0)`
loop spins (shift, check, push, `sleep(100)`) without ever reaching the
`Promise.race` that would process completions.  Hence for EVERY completion
schedule and after ANY number of steps, `B` is still queued and the results
array is still empty: `B` is never marked failed after bounded polling and
`executeJobs` never terminates, contradicting the claim (and §4.3/§7 of the
spec, which the code's own comment "Avoid infinite loop by adding delay"
also intends). -/
theorem C2_dependency_unmet_livelock (picks : List Nat) :
    (runSched failOracle 3 (initState [jobA2, jobB2]) picks).results.isEmpty = true ∧
    1 ∈ (runSched failOracle 3 (initState [jobA2, jobB2]) picks).queue := by
  cases picks with
  | nil => exact ⟨by decide, by decide⟩
  | cons p ps =>
    have h1 : runSched failOracle 3 (initState [jobA2, jobB2]) (p :: ps)
        = runSched failOracle 3 c2Live ps := by
      show runSched failOracle 3 (schedStep failOracle 3 p (initState [jobA2, jobB2])) ps
        = runSched failOracle 3 c2Live ps
      rfl
    rw [h1, runSched_c2Live]
    exact ⟨by decide, by decide⟩

/-- C7 counterexample.  One job with `maxAttempts = 2`; the worker times
out on the first call and succeeds on the second.  `executeJobs` finishes
with a SUCCESS result for the job, but the job's `attempts` counter is 1,
not 2: `attempts` is incremented only in the retry branch (line 2804), a
successful call never increments it.  The claim's `attempts == 2` is
therefore false on the code. -/
theorem C7_attempts_counterexample :
    (runSched oracle7 3 (initState [job7]) [0, 0, 0, 0]).queue = [] ∧
    (runSched oracle7 3 (initState [job7]) [0, 0, 0, 0]).processing = [] ∧
    (runSched oracle7 3 (initState [job7]) [0, 0, 0, 0]).results.map JobResult.status = ["success"] ∧
    (runSched oracle7 3 (initState [job7]) [0, 0, 0, 0]).jobs.map Job.attempts = [1] ∧
    ¬ (runSched oracle7 3 (initState [job7]) [0, 0, 0, 0]).jobs.map Job.attempts = [2] := by
  refine ⟨by decide, by decide, by decide, by decide, by decide⟩

/-- C7 as amended.  A job scheduled with `maxAttempts = 2` whose worker
call times out on the first attempt and succeeds on the second ends with a
result of status `success`, and its `attempts` counter equals 1 when
execution completes — `attempts` counts consumed retries (incremented only
when a failed attempt is re-queued), not worker calls. -/
theorem C7_retry_success_attempts_one :
    (runSched oracle7 3 (initState [job7]) [0, 0, 0, 0]).queue = [] ∧
    (runSched oracle7 3 (initState [job7]) [0, 0, 0, 0]).processing = [] ∧
    (runSched oracle7 3 (initState [job7]) [0, 0, 0, 0]).results.map JobResult.status = ["success"] ∧
    (runSched oracle7 3 (initState [job7]) [0, 0, 0, 0]).jobs.map Job.attempts = [1] := by
  refine ⟨by decide, by decide, by decide, by decide⟩


theorem c8_dispatch (m k a c0 : Nat) (st : String) :
    schedStep failOracle 3 0 (c8state m k a c0 st) = c8inflight m k a c0 := rfl

theorem c8_final (m k c0 : Nat) :
    schedStep failOracle 3 0 (c8inflight m k m c0) = c8done m k (c0 + 1) := by
  simp only [schedStep, c8inflight, c8done, completeOne, findJob, failOracle]
  simp [job8, c8failedResult, Nat.lt_irrefl]

theorem c8_retry (m k a c0 : Nat) (h : a < m) :
    schedStep failOracle 3 0 (c8inflight m k a c0) = c8state m k (a + 1) (c0 + 1) "retrying" := by
  simp only [schedStep, c8inflight, c8state, completeOne, findJob, failOracle, bumpRetry]
  simp [job8, h]

theorem c8_cycle (m k : Nat) : ∀ (K a c0 : Nat) (st : String), a + K = m →
    runSched failOracle 3 (c8state m k a c0 st) (List.replicate (2 * K + 2) 0)
      = c8done m k (c0 + K + 1) := by
  intro K
  induction K with
  | zero =>
    intro a c0 st ha
    subst ha
    show runSched failOracle 3 (c8state (a + 0) k a c0 st) [0, 0] = _
    simp only [runSched, List.foldl]
    rw [c8_dispatch]
    rw [show a + 0 = a from rfl] at *
    rw [c8_final]
  | succ K ih =>
    intro a c0 st ha
    have hsplit : List.replicate (2 * (K + 1) + 2) (0 : Nat)
        = 0 :: 0 :: List.replicate (2 * K + 2) 0 := by
      have h2 : 2 * (K + 1) + 2 = (2 * K + 2) + 1 + 1 := by ring
      rw [h2, List.replicate_succ, List.replicate_succ]
    rw [hsplit]
    have hstep : runSched failOracle 3 (c8state m k a c0 st) (0 :: 0 :: List.replicate (2 * K + 2) 0)
        = runSched failOracle 3 (schedStep failOracle 3 0 (schedStep failOracle 3 0 (c8state m k a c0 st)))
            (List.replicate (2 * K + 2) 0) := rfl
    rw [hstep, c8_dispatch, c8_retry m k a c0 (by omega)]
    have hK := ih (a + 1) (c0 + 1) "retrying" (by omega)
    rw [hK]
    congr 1
    omega

/-- C8 counterexample.  A job with TWO issues whose worker always fails and
`maxAttempts = 2` ends with a `failed` result whose `remediations` array is
EMPTY (line 2813 pushes `remediations: []`), not with two synthesized
failed-patch placeholders: the placeholder count is 0, the issue count 2.
(In passing, the always-failing job is actually dispatched
`maxAttempts + 1` times: the guard on line 2803 is `attempts < maxAttempts`
and `attempts` is incremented after the check.) -/
theorem C8_placeholder_counterexample :
    (runSched failOracle 3 (initState [job8 2 2]) (List.replicate 6 0)).results.map
        JobResult.status = ["failed"] ∧
    (runSched failOracle 3 (initState [job8 2 2]) (List.replicate 6 0)).results.map
        (fun r => r.remediations.length) = [0] ∧
    (job8 2 2).issues.length = 2 ∧
    ¬ (runSched failOracle 3 (initState [job8 2 2]) (List.replicate 6 0)).results.map
        (fun r => r.remediations.length) = [(job8 2 2).issues.length] := by
  refine ⟨by decide, by decide, by decide, by decide⟩

/-- C8 as amended.  For EVERY `maxAttempts` bound `m` and issue count `k`,
a job whose worker call fails on every attempt ends in a `failed` result
whose `remediations` list is EMPTY — `executeJobs` synthesizes no
failed-patch placeholders (per-issue placeholders are built only inside
`AIRemediationAgent.remediateIssues`, and only when one issue-type batch
fails within an otherwise successful worker call). -/
theorem C8_failed_empty_remediations (m k : Nat) :
    (runSched failOracle 3 (initState [job8 m k]) (List.replicate (2 * m + 2) 0)).queue = [] ∧
    (runSched failOracle 3 (initState [job8 m k]) (List.replicate (2 * m + 2) 0)).processing = [] ∧
    (runSched failOracle 3 (initState [job8 m k]) (List.replicate (2 * m + 2) 0)).results
      = [c8failedResult] ∧
    c8failedResult.status = "failed" ∧ c8failedResult.remediations.length = 0 := by
  have h0 : initState [job8 m k] = c8state m k 0 0 "pending" := rfl
  have h1 := c8_cycle m k m 0 0 "pending" (by omega)
  rw [h0, h1]
  exact ⟨rfl, rfl, rfl, rfl, rfl⟩

/-! ## Claim C9: rate-limiter denials in `processIssueType` -/

theorem processAttempts_denied (limiter : Nat → Bool) (worker : Nat → Except String (List Rem))
    (hl : ∀ a, limiter a = false) :
    ∀ (remaining attempt calls : Nat) (lastError : Option String),
      processAttempts limiter worker remaining attempt lastError calls
        = ⟨Except.error (match lastError with
            | some m => "Failed to process issue type after maxRetries attempts: " ++ m
            | none => "TypeError: cannot read message of undefined lastError"), calls⟩ := by
  intro remaining
  induction remaining with
  | zero => intro attempt calls lastError; rfl
  | succ r ih =>
    intro attempt calls lastError
    show (if limiter attempt = false then _ else _) = _
    rw [hl attempt]
    simpa using ih (attempt + 1) calls lastError

/-- C9 counterexample.  `maxRetries = 1`, the rate limiter denies the (only)
loop iteration, and the worker would succeed if it were ever called: the
group still FAILS, with zero worker calls — the `continue` after
`sleep(1000)` (line 255) runs the `for` loop's `attempt++`, so a limiter
denial consumes a retry attempt, and once attempts are exhausted the
function throws.  This contradicts the claim that a denial alone never
causes the job to fail or to consume an attempt. -/
theorem C9_denial_consumes_attempt :
    (processIssueType 1 (fun _ => false) (fun _ => Except.ok ([] : List Rem))).workerCalls = 0 ∧
    (processIssueType 1 (fun _ => false) (fun _ => Except.ok ([] : List Rem))).failed = true := by
  exact ⟨rfl, rfl⟩

/-- C9 as amended.  A rate-limiter denial makes the coordinator wait one
second and retry the same issue group, but the retry CONSUMES one of the
`maxRetries` attempts; if the limiter denies every iteration, the group
fails without a single worker call (for every `maxRetries` and every
worker). -/
theorem C9_denial_all_attempts_fail (maxRetries : Nat) (limiter : Nat → Bool)
    (worker : Nat → Except String (List Rem)) (hl : ∀ a, limiter a = false) :
    (processIssueType maxRetries limiter worker).workerCalls = 0 ∧
    (processIssueType maxRetries limiter worker).failed = true := by
  unfold processIssueType
  rw [processAttempts_denied limiter worker hl maxRetries 1 0 none]
  exact ⟨rfl, rfl⟩

/-- C9 witness: the amended theorem applied at `maxRetries = 2`, an
always-denying limiter and an always-succeeding worker. -/
theorem C9_denial_all_attempts_fail_witness :
    (processIssueType 2 (fun _ => false) (fun _ => Except.ok ([] : List Rem))).workerCalls = 0 ∧
    (processIssueType 2 (fun _ => false) (fun _ => Except.ok ([] : List Rem))).failed = true :=
  C9_denial_all_attempts_fail 2 (fun _ => false) (fun _ => Except.ok ([] : List Rem))
    (fun _ => rfl)

/-! ## Claims C5 and C6: conflict-resolution strategies -/

/-- C5.  The code contradicts the claim (and its own comment "Language
first"): for conflicting candidates with criteria "3.1.1" (index 0 in
`priorityOrder` — the EARLIEST) and "2.4.2" (index 1), the code selects the
"2.4.2" candidate.  The comparator computes
`priorityOrder.indexOf(criterion) || 999`, and in JavaScript `0 || 999` is
`999` (0 is falsy), so the first-listed criterion is demoted to the very
end; symmetrically, an unknown criterion yields `-1`, which is truthy, so
unknown criteria sort FIRST instead of last.  (The claim's specific
"1.1.1"-vs-"4.1.2" instance does hold, since indices 3 and 8 are both
truthy and ordered correctly.) -/
theorem C5_priority_indexOf_bug :
    resolveByCriteriaPriority [c5a, c5b] = c5b ∧
    c5a.wcagCriterion = some "3.1.1" ∧ c5b.wcagCriterion = some "2.4.2" ∧
    jsIndexOf priorityOrder c5a.wcagCriterion = 0 ∧
    jsIndexOf priorityOrder c5b.wcagCriterion = 1 ∧
    resolveByCriteriaPriority [c6a, c6b] = c6a ∧
    c6a.wcagCriterion = some "1.1.1" ∧ c6b.wcagCriterion = some "4.1.2" := by
  exact ⟨rfl, rfl, rfl, rfl, rfl, rfl, rfl, rfl⟩

/-- C6.  The code contradicts the claim (and the comment of
`mergeAttributes`, "Extract attributes from both lines and merge them"):
merging the two non-colliding attribute additions `alt="photo"` (confidence
0.9) and `role="img"` (confidence 0.8) on the line `<img src="x.jpg">` does
produce a single patch with status `merged` that records BOTH candidates in
`mergedFrom`, but its `afterCode` is exactly the LAST candidate's line —
`mergeAttributes(currentLine, newLine)` returns `newLine` unchanged, so
each fold step overwrites the previous one and the `alt` attribute of the
first candidate is lost. -/
theorem C6_merge_keeps_last_only :
    (mergeRemediations [c6a, c6b] (some c6orig)).status = "merged" ∧
    (mergeRemediations [c6a, c6b] (some c6orig)).mergedFrom = [some "1.1.1", some "4.1.2"] ∧
    (mergeRemediations [c6a, c6b] (some c6orig)).afterCode = c6b.afterCode ∧
    strIncludes (c6a.afterCode.getD "") "alt=" = true ∧
    strIncludes (c6b.afterCode.getD "") "role=" = true ∧
    strIncludes ((mergeRemediations [c6a, c6b] (some c6orig)).afterCode.getD "") "alt=" = false := by
  exact ⟨rfl, rfl, rfl, rfl, rfl, rfl⟩

/-! ## Claim C10: frame property of `applyRemediations` -/

theorem insertSorted_perm (le : α → α → Bool) (x : α) (l : List α) :
    (insertSorted le x l).Perm (x :: l) := by
  induction l with
  | nil => exact List.Perm.refl _
  | cons y ys ih =>
    by_cases h : le y x
    · simp only [insertSorted, h, if_true]
      exact (ih.cons y).trans (List.Perm.swap x y ys)
    · have hstep : insertSorted le x (y :: ys) = x :: y :: ys := by
        simp [insertSorted, h]
      rw [hstep]

theorem stableSortBy_perm (le : α → α → Bool) (l : List α) : (stableSortBy le l).Perm l := by
  have main : ∀ (l acc : List α),
      (l.foldl (fun acc x => insertSorted le x acc) acc).Perm (acc ++ l) := by
    intro l
    induction l with
    | nil => intro acc; simp
    | cons x xs ih =>
      intro acc
      have h1 := ih (insertSorted le x acc)
      have h2 : (insertSorted le x acc ++ xs).Perm ((x :: acc) ++ xs) :=
        (insertSorted_perm le x acc).append_right xs
      have h3 : ((x :: acc) ++ xs).Perm (acc ++ x :: xs) := List.perm_middle.symm
      exact (h1.trans h2).trans h3
  simpa [stableSortBy] using main l []

theorem headI_mem_self [Inhabited α] {l : List α} (h : l ≠ []) : l.headI ∈ l := by
  cases l with
  | nil => exact absurd rfl h
  | cons a t => simp [List.headI]

theorem splitLinesAux_ne_nil : ∀ (cs acc : List Char), splitLinesAux cs acc ≠ [] := by
  intro cs
  induction cs with
  | nil => intro acc; simp [splitLinesAux]
  | cons c cs ih =>
    intro acc
    by_cases h : c = '\n' <;> simp [splitLinesAux, h] <;> exact ih _

theorem splitLinesAux_no_newline : ∀ (cs acc : List Char), (∀ c ∈ acc, c ≠ '\n') →
    ∀ s ∈ splitLinesAux cs acc, ∀ c ∈ s.data, c ≠ '\n' := by
  intro cs
  induction cs with
  | nil =>
    intro acc hacc s hs c hc
    simp only [splitLinesAux, List.mem_singleton] at hs
    subst hs
    exact hacc c (by simpa using hc)
  | cons d cs ih =>
    intro acc hacc s hs c hc
    by_cases h : d = '\n'
    · simp only [splitLinesAux, h, if_true, List.mem_cons] at hs
      rcases hs with rfl | hs
      · exact hacc c (by simpa using hc)
      · exact ih [] (by simp) s hs c hc
    · simp only [splitLinesAux, h, if_false] at hs
      refine ih (d :: acc) ?_ s hs c hc
      intro e he
      rcases List.mem_cons.mp he with rfl | he
      · exact h
      · exact hacc e he

theorem splitLinesAux_append (xs ys acc : List Char) (h : ∀ c ∈ xs, c ≠ '\n') :
    splitLinesAux (xs ++ ys) acc = splitLinesAux ys (xs.reverse ++ acc) := by
  induction xs generalizing acc with
  | nil => simp
  | cons x xs ih =>
    have hx : x ≠ '\n' := h x (by simp)
    have hxs : ∀ c ∈ xs, c ≠ '\n' := fun c hc => h c (by simp [hc])
    show splitLinesAux (x :: (xs ++ ys)) acc = _
    simp only [splitLinesAux, hx, if_false]
    rw [ih (x :: acc) hxs]
    simp

theorem string_mk_data (s : String) : String.mk s.data = s := by
  cases s
  rfl

theorem split_join : ∀ (L : List String), L ≠ [] →
    (∀ s ∈ L, ∀ c ∈ s.data, c ≠ '\n') →
    jsSplitNewline (jsJoinNewline L) = L := by
  intro L
  induction L with
  | nil => intro h; exact absurd rfl h
  | cons s rest ih =>
    intro _ hfree
    have hs : ∀ c ∈ s.data, c ≠ '\n' := hfree s (by simp)
    cases rest with
    | nil =>
      show splitLinesAux (jsJoinNewline [s]).toList [] = [s]
      have h0 : (jsJoinNewline [s]).toList = s.data ++ [] := by
        simp [jsJoinNewline, String.toList]
      rw [h0, splitLinesAux_append s.data [] [] hs]
      simp [splitLinesAux, string_mk_data]
    | cons t rest' =>
      have hrest : ∀ x ∈ t :: rest', ∀ c ∈ x.data, c ≠ '\n' :=
        fun x hx => hfree x (by simp [hx])
      have hih := ih (by simp) hrest
      show splitLinesAux (jsJoinNewline (s :: t :: rest')).toList [] = s :: t :: rest'
      have h0 : (jsJoinNewline (s :: t :: rest')).toList
          = s.data ++ ('\n' :: (jsJoinNewline (t :: rest')).data) := by
        show (s ++ "\n" ++ jsJoinNewline (t :: rest')).data = _
        simp [String.data_append]
      rw [h0, splitLinesAux_append s.data _ [] hs]
      simp only [splitLinesAux, if_pos rfl]
      rw [List.append_nil, List.reverse_reverse, string_mk_data]
      exact congrArg (s :: ·) hih

theorem applyRemStep_length (st : List String × Nat × List String) (r : Rem) :
    (applyRemStep st r).1.length = st.1.length := by
  unfold applyRemStep
  rcases r.lineNumber with _ | n
  · rfl
  · by_cases h : 1 ≤ n && n ≤ st.1.length <;> simp [h]

theorem applyFold_length : ∀ (rs : List Rem) (st : List String × Nat × List String),
    ((rs.foldl applyRemStep st).1).length = st.1.length := by
  intro rs
  induction rs with
  | nil => intro st; rfl
  | cons r rs ih =>
    intro st
    simp only [List.foldl_cons]
    rw [ih (applyRemStep st r), applyRemStep_length]

theorem applyRemStep_get?_ne (st : List String × Nat × List String) (r : Rem) (i : Nat)
    (h : ¬ r.lineNumber = some (i + 1)) :
    (applyRemStep st r).1.get? i = st.1.get? i := by
  unfold applyRemStep
  rcases hn : r.lineNumber with _ | n
  · rfl
  · by_cases hr : 1 ≤ n && n ≤ st.1.length
    · simp only [hr, if_true]
      have hr2 := hr
      simp only [Bool.and_eq_true, decide_eq_true_eq] at hr2
      have hne : n - 1 ≠ i := by
        intro hcontra
        exact h (by rw [hn]; congr 1; omega)
      exact List.get?_set_ne _ _ hne
    · simp [hr]

theorem applyFold_get?_ne : ∀ (rs : List Rem) (st : List String × Nat × List String) (i : Nat),
    (∀ r ∈ rs, ¬ r.lineNumber = some (i + 1)) →
    ((rs.foldl applyRemStep st).1).get? i = st.1.get? i := by
  intro rs
  induction rs with
  | nil => intro st i _; rfl
  | cons r rs ih =>
    intro st i h
    simp only [List.foldl_cons]
    rw [ih (applyRemStep st r) i (fun x hx => h x (by simp [hx])),
      applyRemStep_get?_ne st r i (h r (by simp))]

theorem applyRemStep_no_newline (st : List String × Nat × List String) (r : Rem)
    (hst : ∀ l ∈ st.1, ∀ c ∈ l.data, c ≠ '\n')
    (hr : ∀ c ∈ (r.afterCode.getD "").data, c ≠ '\n') :
    ∀ l ∈ (applyRemStep st r).1, ∀ c ∈ l.data, c ≠ '\n' := by
  unfold applyRemStep
  rcases r.lineNumber with _ | n
  · exact hst
  · by_cases hb : 1 ≤ n && n ≤ st.1.length
    · simp only [hb, if_true]
      intro l hl
      rcases List.mem_or_eq_of_mem_set hl with hl | rfl
      · exact hst l hl
      · exact hr
    · simp only [hb, if_false]
      exact hst

theorem applyFold_no_newline : ∀ (rs : List Rem) (st : List String × Nat × List String),
    (∀ l ∈ st.1, ∀ c ∈ l.data, c ≠ '\n') →
    (∀ r ∈ rs, ∀ c ∈ (r.afterCode.getD "").data, c ≠ '\n') →
    ∀ l ∈ (rs.foldl applyRemStep st).1, ∀ c ∈ l.data, c ≠ '\n' := by
  intro rs
  induction rs with
  | nil => intro st hst _; exact hst
  | cons r rs ih =>
    intro st hst hrs
    simp only [List.foldl_cons]
    exact ih (applyRemStep st r)
      (applyRemStep_no_newline st r hst (hrs r (by simp)))
      (fun x hx => hrs x (by simp [hx]))

/-- C10 as amended.  Provided no applied `afterCode` itself contains a
newline, `applyRemediations` returns a `modifiedHtml` with exactly as many
lines as the input, and every line whose 1-based number is not the
`lineNumber` of some status-`success` remediation is character-for-character
identical to the corresponding input line (the only mutation is
`lines[lineNumber-1] = afterCode` for in-range success remediations, and
out-of-range ones only record an error). -/
theorem C10_frame_preservation (sourceHtml : String) (remediations : List Rem)
    (hnl : ∀ r ∈ remediations, r.status = "success" →
      ∀ c ∈ (r.afterCode.getD "").data, c ≠ '\n') :
    (jsSplitNewline (applyRemediations sourceHtml remediations).modifiedHtml).length
      = (jsSplitNewline sourceHtml).length ∧
    ∀ i : Nat, (∀ r ∈ remediations, r.status = "success" → ¬ r.lineNumber = some (i + 1)) →
      (jsSplitNewline (applyRemediations sourceHtml remediations).modifiedHtml).get? i
        = (jsSplitNewline sourceHtml).get? i := by
  have hmem : ∀ r ∈ stableSortBy
      (fun a b => decide (b.lineNumber.getD 0 ≤ a.lineNumber.getD 0))
      (remediations.filter (fun r => r.status == "success")),
      r ∈ remediations ∧ r.status = "success" := by
    intro r hr
    have h1 := (stableSortBy_perm _ _).mem_iff.mp hr
    have h2 := List.mem_filter.mp h1
    exact ⟨h2.1, by simpa using h2.2⟩
  have hlines : ∀ l ∈ jsSplitNewline sourceHtml, ∀ c ∈ l.data, c ≠ '\n' :=
    splitLinesAux_no_newline sourceHtml.toList [] (by simp)
  have hmodeq : (applyRemediations sourceHtml remediations).modifiedHtml
      = jsJoinNewline ((stableSortBy
          (fun a b => decide (b.lineNumber.getD 0 ≤ a.lineNumber.getD 0))
          (remediations.filter (fun r => r.status == "success"))).foldl applyRemStep
          (jsSplitNewline sourceHtml, 0, [])).1 := rfl
  set rs := stableSortBy
      (fun a b => decide (b.lineNumber.getD 0 ≤ a.lineNumber.getD 0))
      (remediations.filter (fun r => r.status == "success")) with hrs
  set F := rs.foldl applyRemStep (jsSplitNewline sourceHtml, 0, []) with hF
  have hlen : F.1.length = (jsSplitNewline sourceHtml).length := applyFold_length rs _
  have hnn : ∀ l ∈ F.1, ∀ c ∈ l.data, c ≠ '\n' := by
    refine applyFold_no_newline rs _ hlines ?_
    intro r hr
    exact hnl r (hmem r hr).1 (hmem r hr).2
  have hne : F.1 ≠ [] := by
    have := splitLinesAux_ne_nil sourceHtml.toList []
    intro hcon
    rw [hcon] at hlen
    exact this (List.length_eq_zero.mp hlen.symm)
  have hsj : jsSplitNewline (jsJoinNewline F.1) = F.1 := split_join F.1 hne hnn
  constructor
  · rw [hmodeq, hsj, hlen]
  · intro i hi
    rw [hmodeq, hsj]
    refine applyFold_get?_ne rs _ i ?_
    intro r hr
    exact hi r (hmem r hr).1 (hmem r hr).2

/-- C10 counterexample.  The claim fails without the no-newline proviso:
a single success remediation whose `afterCode` is `"x\ny"` applied to the
one-line source `"a"` yields a `modifiedHtml` with TWO lines — `split`
/`join` cannot round-trip an `afterCode` that embeds a newline. -/
theorem C10_newline_counterexample :
    (jsSplitNewline (applyRemediations "a" [c10rem]).modifiedHtml).length = 2 ∧
    (jsSplitNewline "a").length = 1 ∧
    c10rem.status = "success" ∧ c10rem.lineNumber = some 1 := by
  exact ⟨rfl, rfl, rfl, rfl⟩

/-- C10 witness: the amended theorem applied to the two-line source
`"a\nb"` with a remediation replacing line 2 — the line count is preserved
and line 1 is untouched. -/
theorem C10_frame_preservation_witness :
    (jsSplitNewline (applyRemediations "a\nb" [w10rem]).modifiedHtml).length
      = (jsSplitNewline "a\nb").length ∧
    (jsSplitNewline (applyRemediations "a\nb" [w10rem]).modifiedHtml).get? 0
      = (jsSplitNewline "a\nb").get? 0 := by
  have h := C10_frame_preservation "a\nb" [w10rem] (by decide)
  exact ⟨h.1, h.2 0 (by decide)⟩

/-! ## Claim C4: uniqueness per line after conflict resolution -/

theorem stableSortBy_ne_nil (le : α → α → Bool) (l : List α) (h : l ≠ []) :
    stableSortBy le l ≠ [] := by
  intro hcon
  have := (stableSortBy_perm le l).length_eq
  rw [hcon] at this
  exact h (List.length_eq_zero.mp this.symm)

theorem headI_stableSortBy_mem (le : Rem → Rem → Bool) (l : List Rem) (h : l ≠ []) :
    (stableSortBy le l).headI ∈ l :=
  (stableSortBy_perm le l).mem_iff.mp (headI_mem_self (stableSortBy_ne_nil le l h))

theorem resolveByConfidence_lineNumber (g : List Rem) (k : Option Nat)
    (hg : ∀ x ∈ g, x.lineNumber = k) (hne : g ≠ []) :
    (resolveByConfidence g).lineNumber = k :=
  hg _ (headI_stableSortBy_mem _ g hne)

theorem resolveByCriteriaPriority_lineNumber (g : List Rem) (k : Option Nat)
    (hg : ∀ x ∈ g, x.lineNumber = k) (hne : g ≠ []) :
    (resolveByCriteriaPriority g).lineNumber = k :=
  hg _ (headI_stableSortBy_mem _ g hne)

theorem mergeRemediations_lineNumber (g : List Rem) (line : Option String) (k : Option Nat)
    (hg : ∀ x ∈ g, x.lineNumber = k) (hne : g ≠ []) :
    (mergeRemediations g line).lineNumber = k := by
  unfold mergeRemediations
  cases hs : stableSortBy
      (fun a b => decide (jsConfOr05 b.confidence ≤ jsConfOr05 a.confidence)) g with
  | nil => exact absurd hs (stableSortBy_ne_nil _ g hne)
  | cons base rest =>
    have hbase : base ∈ g := by
      have : base ∈ stableSortBy
          (fun a b => decide (jsConfOr05 b.confidence ≤ jsConfOr05 a.confidence)) g := by
        rw [hs]; exact List.mem_cons_self _ _
      exact (stableSortBy_perm _ g).mem_iff.mp this
    by_cases hlen : (((base :: rest).foldl
        (fun (st : Option String × List Rem) r =>
          match attemptMerge st.1 r st.2 with
          | some res => (some res, st.2 ++ [r])
          | none => st) (line, [])).2).length > 0
    · simp only [hs, hlen, if_true]
      exact hg base hbase
    · simp only [hs, hlen, if_false]
      exact resolveByConfidence_lineNumber g k hg hne

theorem applyConflictResolution_lineNumber (g : List Rem) (strategy : String)
    (line : Option String) (k : Option Nat)
    (hg : ∀ x ∈ g, x.lineNumber = k) (hne : g ≠ [])
    (hstrat : strategy = "priority" ∨ strategy = "confidence" ∨ strategy = "merge") :
    (applyConflictResolution g strategy line).lineNumber = k := by
  rcases hstrat with rfl | rfl | rfl
  · exact resolveByCriteriaPriority_lineNumber g k hg hne
  · exact resolveByConfidence_lineNumber g k hg hne
  · exact mergeRemediations_lineNumber g line k hg hne

theorem insertGroup_keys (k : Option Nat) (r : Rem) :
    ∀ gs : List (Option Nat × List Rem),
      (insertGroup gs k r).map Prod.fst =
        if k ∈ gs.map Prod.fst then gs.map Prod.fst else gs.map Prod.fst ++ [k] := by
  intro gs
  induction gs with
  | nil => simp [insertGroup]
  | cons p t ih =>
    obtain ⟨k1, rs⟩ := p
    by_cases h : k1 = k
    · subst h
      simp [insertGroup]
    · have hb : (k1 == k) = false := by simpa using h
      simp only [insertGroup, hb, Bool.false_eq_true, if_false, List.map_cons]
      rw [ih]
      by_cases hmem : k ∈ t.map Prod.fst
      · simp [hmem, Ne.symm h]
      · simp [hmem, Ne.symm h]


theorem insertGroup_keys_mem (gs : List (Option Nat × List Rem)) (k : Option Nat) (r : Rem)
    (k' : Option Nat) :
    k' ∈ (insertGroup gs k r).map Prod.fst ↔ k' ∈ gs.map Prod.fst ∨ k' = k := by
  rw [insertGroup_keys]
  by_cases h : k ∈ gs.map Prod.fst
  · simp only [h, if_true]
    constructor
    · exact Or.inl
    · rintro (h1 | rfl)
      · exact h1
      · exact h
  · simp [h]

theorem insertGroup_keys_nodup (gs : List (Option Nat × List Rem)) (k : Option Nat) (r : Rem)
    (h : (gs.map Prod.fst).Nodup) : ((insertGroup gs k r).map Prod.fst).Nodup := by
  rw [insertGroup_keys]
  by_cases hm : k ∈ gs.map Prod.fst
  · simpa [hm]
  · simp only [hm, if_false]
    refine List.nodup_append.mpr ⟨h, List.nodup_singleton k, ?_⟩
    intro a ha hb
    rw [List.mem_singleton] at hb
    subst hb
    exact hm ha

theorem insertGroup_inv (gs : List (Option Nat × List Rem)) (k : Option Nat) (r : Rem)
    (hgs : ∀ p ∈ gs, p.2 ≠ [] ∧ ∀ x ∈ p.2, x.lineNumber = p.1) (hr : r.lineNumber = k) :
    ∀ p ∈ insertGroup gs k r, p.2 ≠ [] ∧ ∀ x ∈ p.2, x.lineNumber = p.1 := by
  induction gs with
  | nil =>
    intro p hp
    simp only [insertGroup, List.mem_singleton] at hp
    subst hp
    exact ⟨by simp, by simpa using hr⟩
  | cons q t ih =>
    obtain ⟨k1, rs⟩ := q
    intro p hp
    by_cases h : (k1 == k) = true
    · simp only [insertGroup, h, if_true] at hp
      rcases List.mem_cons.mp hp with rfl | hp
      · have hq := hgs (k1, rs) (by simp)
        refine ⟨by simp, ?_⟩
        intro x hx
        rcases List.mem_append.mp hx with hx | hx
        · exact hq.2 x hx
        · have hxr : x = r := by simpa using hx
          subst hxr
          rw [hr]
          exact (by simpa using h : k1 = k).symm
      · exact hgs p (by simp [hp])
    · simp only [insertGroup, h, Bool.false_eq_true, if_false] at hp
      rcases List.mem_cons.mp hp with rfl | hp
      · exact hgs (k1, rs) (by simp)
      · exact ih (fun q hq => hgs q (by simp [hq])) p hp

theorem groupStep_success (gs : List (Option Nat × List Rem)) (r : Rem)
    (hs : r.status = "success") : groupStep gs r = insertGroup gs r.lineNumber r := by
  simp [groupStep, hs]

theorem groupStep_fail (gs : List (Option Nat × List Rem)) (r : Rem)
    (hs : ¬ r.status = "success") : groupStep gs r = gs := by
  simp [groupStep, hs]

theorem groupFold_inv : ∀ (rems : List Rem) (gs : List (Option Nat × List Rem)),
    (∀ p ∈ gs, p.2 ≠ [] ∧ ∀ x ∈ p.2, x.lineNumber = p.1) →
    ((gs.map Prod.fst).Nodup) →
    (∀ p ∈ rems.foldl groupStep gs, p.2 ≠ [] ∧ ∀ x ∈ p.2, x.lineNumber = p.1) ∧
    (((rems.foldl groupStep gs).map Prod.fst).Nodup) ∧
    (∀ k, k ∈ (rems.foldl groupStep gs).map Prod.fst ↔
      k ∈ gs.map Prod.fst ∨ ∃ r ∈ rems, r.status = "success" ∧ r.lineNumber = k) := by
  intro rems
  induction rems with
  | nil =>
    intro gs h1 h2
    exact ⟨h1, h2, fun k => by simp⟩
  | cons r rs ih =>
    intro gs h1 h2
    by_cases hs : r.status = "success"
    · rw [List.foldl_cons, groupStep_success gs r hs]
      have hstep := ih (insertGroup gs r.lineNumber r)
        (insertGroup_inv gs r.lineNumber r h1 rfl)
        (insertGroup_keys_nodup gs r.lineNumber r h2)
      refine ⟨hstep.1, hstep.2.1, ?_⟩
      intro k
      rw [hstep.2.2 k, insertGroup_keys_mem]
      constructor
      · rintro ((h3 | rfl) | h3)
        · exact Or.inl h3
        · exact Or.inr ⟨r, by simp, hs, rfl⟩
        · obtain ⟨x, hx, hx2⟩ := h3
          exact Or.inr ⟨x, by simp [hx], hx2⟩
      · rintro (h3 | ⟨x, hx, hx1, hx2⟩)
        · exact Or.inl (Or.inl h3)
        · rcases List.mem_cons.mp hx with rfl | hx
          · exact Or.inl (Or.inr hx2.symm)
          · exact Or.inr ⟨x, hx, hx1, hx2⟩
    · rw [List.foldl_cons, groupStep_fail gs r hs]
      have hstep := ih gs h1 h2
      refine ⟨hstep.1, hstep.2.1, ?_⟩
      intro k
      rw [hstep.2.2 k]
      constructor
      · rintro (h3 | ⟨x, hx, hx1, hx2⟩)
        · exact Or.inl h3
        · exact Or.inr ⟨x, by simp [hx], hx1, hx2⟩
      · rintro (h3 | ⟨x, hx, hx1, hx2⟩)
        · exact Or.inl h3
        · rcases List.mem_cons.mp hx with rfl | hx
          · exact absurd hx1 hs
          · exact Or.inr ⟨x, hx, hx1, hx2⟩

theorem resolveStep_eq (strategy : String) (lines : List String) (acc : List Rem)
    (kl : Option Nat × List Rem) :
    resolveStep strategy lines acc kl
      = acc ++ (if kl.2.length == 1 then kl.2
          else [applyConflictResolution kl.2 strategy (jsLineAt lines kl.1)]) := by
  by_cases h : (kl.2.length == 1) = true <;> simp [resolveStep, h]

theorem resolveFold_countP (strategy : String) (lines : List String) (k : Option Nat)
    (hstrat : strategy = "priority" ∨ strategy = "confidence" ∨ strategy = "merge") :
    ∀ (gs : List (Option Nat × List Rem)) (acc : List Rem),
    (∀ q ∈ gs, q.2 ≠ [] ∧ ∀ x ∈ q.2, x.lineNumber = q.1) →
    (gs.foldl (resolveStep strategy lines) acc).countP (fun r => r.lineNumber == k)
      = acc.countP (fun r => r.lineNumber == k) + (gs.map Prod.fst).count k := by
  intro gs
  induction gs with
  | nil => intro acc _; simp
  | cons kl t ih =>
    intro acc hinv
    rw [List.foldl_cons, resolveStep_eq,
      ih _ (fun q hq => hinv q (by simp [hq])), List.countP_append]
    have hq := hinv kl (by simp)
    have hcontrib : (if kl.2.length == 1 then kl.2
        else [applyConflictResolution kl.2 strategy (jsLineAt lines kl.1)]).countP
          (fun r => r.lineNumber == k) = if kl.1 == k then 1 else 0 := by
      by_cases h1 : (kl.2.length == 1) = true
      · obtain ⟨x, hx⟩ := List.length_eq_one.mp (by simpa using h1)
        have hxk : x.lineNumber = kl.1 := hq.2 x (by simp [hx])
        simp [h1, hx, List.countP_cons, hxk]
      · have hres : (applyConflictResolution kl.2 strategy (jsLineAt lines kl.1)).lineNumber
            = kl.1 := applyConflictResolution_lineNumber kl.2 strategy _ kl.1 hq.2 hq.1 hstrat
        simp [h1, List.countP_cons, hres]
    rw [hcontrib]
    have hcount : ((kl.1 :: t.map Prod.fst).count k)
        = (t.map Prod.fst).count k + if kl.1 == k then 1 else 0 := by
      by_cases hk : kl.1 = k
      · subst hk
        simp
      · have h3 : (kl.1 == k) = false := by simpa using hk
        rw [List.count_cons_of_ne (fun h => hk h.symm)]
        simp [h3]
    simp only [List.map_cons, hcount]
    omega

theorem count_key_one : ∀ (l : List (Option Nat)) (k : Option Nat),
    l.Nodup → k ∈ l → l.count k = 1 := by
  intro l
  induction l with
  | nil => intro k _ hk; cases hk
  | cons a t ih =>
    intro k hnd hk
    rcases List.mem_cons.mp hk with rfl | hmem
    · rw [List.count_cons_self, List.count_eq_zero.mpr (List.nodup_cons.mp hnd).1]
    · have hne : k ≠ a := fun h => (List.nodup_cons.mp hnd).1 (h ▸ hmem)
      rw [List.count_cons_of_ne hne]
      exact ih k (List.nodup_cons.mp hnd).2 hmem

theorem collectSuccessRems_status (results : List JobResult)
    (hall : ∀ res ∈ results, ∀ r ∈ res.remediations, r.status = "success") :
    ∀ r ∈ collectSuccessRems results, r.status = "success" := by
  have main : ∀ (rl : List JobResult) (acc : List Rem),
      (∀ r ∈ acc, r.status = "success") →
      (∀ res ∈ rl, ∀ r ∈ res.remediations, r.status = "success") →
      ∀ r ∈ rl.foldl collectStep acc, r.status = "success" := by
    intro rl
    induction rl with
    | nil => intro acc hacc _; exact hacc
    | cons res rest ih =>
      intro acc hacc hall'
      rw [List.foldl_cons]
      refine ih (collectStep acc res) ?_ (fun q hq => hall' q (by simp [hq]))
      intro r hr
      unfold collectStep at hr
      by_cases hs : (res.status == "success") = true
      · rw [if_pos hs] at hr
        rcases List.mem_append.mp hr with hr | hr
        · exact hacc r hr
        · obtain ⟨r0, hr0, rfl⟩ := List.mem_map.mp hr
          exact hall' res (by simp) r0 hr0
      · rw [if_neg hs] at hr
        exact hacc r hr
  exact main results [] (by simp) hall

/-- C4 as amended.  For job results ALL of whose remediations have status
`success`, and for the strategies `priority`, `confidence` and `merge`,
each `lineNumber` appearing among the input patches is targeted by exactly
one patch in the list returned by `resolveConflicts`: the success patches
are partitioned into line groups with pairwise-distinct keys, each group
contributes exactly one output patch carrying its key (a pass-through for
singleton groups, the strategy's resolution otherwise — which always keeps
the group's `lineNumber`), and no non-success patch is appended.  (The
`manual` strategy is excluded — see the counterexample — as are inputs with
non-success patches, which are appended verbatim and may duplicate a
line.) -/
theorem C4_resolved_line_unique (results : List JobResult) (sourceHtml strategy : String)
    (hstrat : strategy = "priority" ∨ strategy = "confidence" ∨ strategy = "merge")
    (hall : ∀ res ∈ results, ∀ r ∈ res.remediations, r.status = "success")
    (k : Option Nat) (hk : k ∈ (collectSuccessRems results).map (fun r => r.lineNumber)) :
    (resolveConflicts results sourceHtml strategy).countP (fun r => r.lineNumber == k) = 1 := by
  have hall' := collectSuccessRems_status results hall
  have hres : resolveConflicts results sourceHtml strategy
      = (groupByLine (collectSuccessRems results)).foldl
          (resolveStep strategy (jsSplitNewline sourceHtml)) []
        ++ (collectSuccessRems results).filter (fun r => !(r.status == "success")) := rfl
  have hfilter : (collectSuccessRems results).filter (fun r => !(r.status == "success")) = [] := by
    rw [List.filter_eq_nil]
    intro a ha
    simp [hall' a ha]
  have hginv := groupFold_inv (collectSuccessRems results) [] (by simp) (by simp)
  rw [hres, hfilter, List.append_nil]
  have hfoldeq : groupByLine (collectSuccessRems results)
      = (collectSuccessRems results).foldl groupStep [] := rfl
  rw [hfoldeq]
  rw [resolveFold_countP strategy _ k hstrat _ [] hginv.1]
  have hkey : k ∈ ((collectSuccessRems results).foldl groupStep []).map Prod.fst := by
    rw [hginv.2.2]
    obtain ⟨r, hr, hrk⟩ := List.mem_map.mp hk
    exact Or.inr ⟨r, hr, hall' r hr, hrk⟩
  rw [count_key_one _ k hginv.2.1 hkey]
  simp

/-- C4 counterexample.  Under the `manual` strategy the claim fails: two
successful patches on line 1 are replaced by a single `needs_review`
placeholder built WITHOUT a `lineNumber` (lines 3030-3035), so line 1 —
which appears among the successful input patches — is targeted by ZERO
patches in the resolved list, not exactly one. -/
theorem C4_manual_counterexample :
    (collectSuccessRems [c4res]).map (fun r => r.lineNumber) = [some 1, some 1] ∧
    (resolveConflicts [c4res] "line one" "manual").map Rem.status = ["needs_review"] ∧
    (resolveConflicts [c4res] "line one" "manual").countP (fun r => r.lineNumber == some 1) = 0 := by
  refine ⟨by decide, by decide, by decide⟩

/-- C4 witness: the amended theorem applied to one successful result with
two patches on line 1 under the `priority` strategy. -/
theorem C4_resolved_line_unique_witness :
    (resolveConflicts [c4res] "line one" "priority").countP (fun r => r.lineNumber == some 1) = 1 :=
  C4_resolved_line_unique [c4res] "line one" "priority" (Or.inl rfl) (by decide) (some 1)
    (by decide)

/-! ## Claim C3: the depth-first topological sort -/

/-- C3 counterexample.  With DUPLICATED job types the ordering claim
fails even though the dependency graph (edges from a job to every job of a
type it lists) is acyclic: for jobs `A1` (id 0, type "a"), `B` (id 1,
depends on type "a") and `A2` (id 2, type "a"), `resolveDependencies`
returns them unchanged — `jobs.find` resolves the dependency to the FIRST
job of type "a" only, so `B` (id 1) is emitted BEFORE `A2` (id 2), a job of
a type it depends on.  (`A1` and `A2` have no dependencies, so the only
edges are B→A1 and B→A2 and the graph is acyclic.) -/
theorem C3_duplicate_type_counterexample :
    (resolveDependencies [c3a1, c3b, c3a2]).map Job.id = [0, 1, 2] ∧
    c3b.dependencies = ["a"] ∧ c3a1.type = "a" ∧ c3a2.type = "a" ∧
    c3a1.dependencies = [] ∧ c3a2.dependencies = [] ∧
    c3b.id = 1 ∧ c3a2.id = 2 := by
  refine ⟨by decide, by decide, by decide, by decide, by decide, by decide, by decide, by decide⟩

theorem visited_mono (jobs : List Job) {s s' : TS} (hinv : TSInv jobs s) (hinv' : TSInv jobs s')
    (hpre : s.sorted <+: s'.sorted) : ∀ x ∈ s.visited, x ∈ s'.visited := by
  intro x hx
  rw [hinv.2.2.1] at hx
  rw [hinv'.2.2.1]
  rw [List.mem_reverse] at hx ⊢
  exact (hpre.map Job.id).subset hx

theorem mem_sorted_of_id_mem_visited (jobs : List Job) {s : TS} (hinv : TSInv jobs s)
    (hids : (jobs.map Job.id).Nodup) {d : Job} (hd : d ∈ jobs)
    (hx : d.id ∈ s.visited) : d ∈ s.sorted := by
  rw [hinv.2.2.1, List.mem_reverse] at hx
  obtain ⟨d', hd', hd'id⟩ := List.mem_map.mp hx
  have hd'j : d' ∈ jobs := hinv.2.2.2.1 d' hd'
  have : d' = d := List.inj_on_of_nodup_map hids hd'j hd hd'id
  exact this ▸ hd'

theorem visitListP_of_visitP (jobs : List Job) (rank : Nat → Nat) (fuel : Nat)
    (hids : (jobs.map Job.id).Nodup) (hvp : VisitP jobs rank fuel) :
    VisitListP jobs rank fuel := by
  intro deps
  induction deps with
  | nil =>
    intro s h1 h2 _ _
    exact ⟨h1, h2, rfl, List.prefix_refl _, by simp, fun x hx => Or.inl hx⟩
  | cons t ts ih =>
    intro s hinv hdeps hrank hfuel
    rw [List.foldl_cons]
    cases hf : jobs.find? (fun j => j.type == t) with
    | none =>
      have hstep := ih s hinv hdeps (fun t' ht' => hrank t' (by simp [ht'])) hfuel
      refine ⟨hstep.1, hstep.2.1, hstep.2.2.1, hstep.2.2.2.1, ?_, hstep.2.2.2.2.2⟩
      intro t' ht' d hd
      rcases List.mem_cons.mp ht' with rfl | ht'
      · rw [hf] at hd; cases hd
      · exact hstep.2.2.2.2.1 t' ht' d hd
    | some d =>
      have hd : d ∈ jobs := List.mem_of_find?_eq_some hf
      have hvisit := hvp d s hd hinv hdeps (hrank t (by simp) d hf) hfuel
      have hstep := ih (visit jobs fuel d s) hvisit.1 hvisit.2.1
        (by
          intro t' ht' d' hd' v hv
          rw [hvisit.2.2.1] at hv
          exact hrank t' (by simp [ht']) d' hd' v hv)
        (by rw [hvisit.2.2.1]; exact hfuel)
      refine ⟨hstep.1, hstep.2.1, by rw [hstep.2.2.1, hvisit.2.2.1],
        hvisit.2.2.2.1.trans hstep.2.2.2.1, ?_, ?_⟩
      · intro t' ht' d' hd'
        rcases List.mem_cons.mp ht' with rfl | ht'
        · have : d' = d := by rw [hf] at hd'; exact (Option.some_inj.mp hd').symm
          subst this
          exact visited_mono jobs hvisit.1 hstep.1 hstep.2.2.2.1 d'.id hvisit.2.2.2.2.1
        · exact hstep.2.2.2.2.1 t' ht' d' hd'
      · intro x hx
        rcases hstep.2.2.2.2.2 x hx with hx1 | hx1
        · exact hvisit.2.2.2.2.2 x hx1
        · rw [hvisit.2.2.1] at hx1
          exact Or.inr hx1

theorem visitP_all (jobs : List Job) (rank : Nat → Nat)
    (hids : (jobs.map Job.id).Nodup)
    (hrank : ∀ j ∈ jobs, ∀ t ∈ j.dependencies, ∀ d,
      jobs.find? (fun x => x.type == t) = some d → rank d.id < rank j.id) :
    ∀ fuel, VisitP jobs rank fuel := by
  intro fuel
  induction fuel with
  | zero =>
    intro job s hjob hinv hdeps hrk hfuel
    have hsub : s.visiting ⊆ idsOf jobs := fun x hx => hinv.1 x hx
    have hle := (List.subperm_of_subset hinv.2.1 hsub).length_le
    have hlen : (idsOf jobs).length = jobs.length := by simp [idsOf]
    omega
  | succ fuel ih =>
    intro job s hjob hinv hdeps hrk hfuel
    by_cases h1 : (s.visiting.contains job.id) = true
    · exact absurd (hrk job.id (by simpa using h1)) (lt_irrefl _)
    · by_cases h2 : (s.visited.contains job.id) = true
      · have hvisit : visit jobs (fuel + 1) job s = s := by
          show (if s.visiting.contains job.id then s
            else if s.visited.contains job.id then s else _) = s
          rw [if_neg h1, if_pos h2]
        rw [hvisit]
        exact ⟨hinv, hdeps, rfl, List.prefix_refl _, by simpa using h2,
          fun x hx => Or.inl hx⟩
      · have hmem : job.id ∉ s.visiting := by simpa using h1
        have hmem2 : job.id ∉ s.visited := by simpa using h2
        have hveq : visit jobs (fuel + 1) job s
            = ⟨(job.dependencies.foldl (fun (acc : TS) depType =>
                  match jobs.find? (fun j => j.type == depType) with
                  | some depJob => visit jobs fuel depJob acc
                  | none => acc) ⟨s.sorted, s.visited, job.id :: s.visiting⟩).sorted ++ [job],
                job.id :: (job.dependencies.foldl (fun (acc : TS) depType =>
                  match jobs.find? (fun j => j.type == depType) with
                  | some depJob => visit jobs fuel depJob acc
                  | none => acc) ⟨s.sorted, s.visited, job.id :: s.visiting⟩).visited,
                (job.dependencies.foldl (fun (acc : TS) depType =>
                  match jobs.find? (fun j => j.type == depType) with
                  | some depJob => visit jobs fuel depJob acc
                  | none => acc) ⟨s.sorted, s.visited, job.id :: s.visiting⟩).visiting.erase
                  job.id⟩ := by
          show (if s.visiting.contains job.id then s
            else if s.visited.contains job.id then s else _) = _
          rw [if_neg h1, if_neg h2]
        have hinv1 : TSInv jobs ⟨s.sorted, s.visited, job.id :: s.visiting⟩ := by
          refine ⟨?_, ?_, hinv.2.2.1, hinv.2.2.2.1, hinv.2.2.2.2⟩
          · intro x hx
            rcases List.mem_cons.mp hx with rfl | hx
            · exact List.mem_map_of_mem Job.id hjob
            · exact hinv.1 x hx
          · exact List.nodup_cons.mpr ⟨hmem, hinv.2.1⟩
        have hdeps1 : DepsBefore jobs ⟨s.sorted, s.visited, job.id :: s.visiting⟩ := hdeps
        have hrank1 : ∀ t ∈ job.dependencies, ∀ d,
            jobs.find? (fun x => x.type == t) = some d →
            ∀ v ∈ (⟨s.sorted, s.visited, job.id :: s.visiting⟩ : TS).visiting,
              rank d.id < rank v := by
          intro t ht d hd v hv
          rcases List.mem_cons.mp hv with rfl | hv
          · exact hrank job hjob t ht d hd
          · exact (hrank job hjob t ht d hd).trans (hrk v hv)
        have hfuel1 : jobs.length + 1
            ≤ fuel + (⟨s.sorted, s.visited, job.id :: s.visiting⟩ : TS).visiting.length := by
          show jobs.length + 1 ≤ fuel + (job.id :: s.visiting).length
          simp only [List.length_cons]
          omega
        have hstep := visitListP_of_visitP jobs rank fuel hids ih job.dependencies
          ⟨s.sorted, s.visited, job.id :: s.visiting⟩ hinv1 hdeps1 hrank1 hfuel1
        set F := job.dependencies.foldl (fun (acc : TS) depType =>
          match jobs.find? (fun j => j.type == depType) with
          | some depJob => visit jobs fuel depJob acc
          | none => acc) ⟨s.sorted, s.visited, job.id :: s.visiting⟩ with hFdef
        have hFvisiting : F.visiting = job.id :: s.visiting := hstep.2.2.1
        have hFprefix : s.sorted <+: F.sorted := hstep.2.2.2.1
        have hjid_not_visited : job.id ∉ F.visited := by
          intro hx
          rcases hstep.2.2.2.2.2 job.id hx with hx1 | hx1
          · exact hmem2 hx1
          · exact hx1 (List.mem_cons_self _ _)
        have hjob_not_sorted : job ∉ F.sorted := by
          intro hj
          refine hjid_not_visited ?_
          rw [hstep.1.2.2.1, List.mem_reverse]
          exact List.mem_map_of_mem Job.id hj
        have hRvisiting : (F.visiting.erase job.id) = s.visiting := by
          rw [hFvisiting, List.erase_cons_head]
        rw [hveq]
        refine ⟨?_, ?_, hRvisiting, ?_, List.mem_cons_self _ _, ?_⟩
        · -- TSInv of the result
          refine ⟨?_, ?_, ?_, ?_, ?_⟩
          · intro x hx
            rw [hRvisiting] at hx
            exact hinv.1 x hx
          · rw [hRvisiting]
            exact hinv.2.1
          · show job.id :: F.visited = ((F.sorted ++ [job]).map Job.id).reverse
            rw [hstep.1.2.2.1]
            simp
          · intro j hj
            rcases List.mem_append.mp hj with hj | hj
            · exact hstep.1.2.2.2.1 j hj
            · rw [List.mem_singleton.mp hj]; exact hjob
          · show ((F.sorted ++ [job]).map Job.id).Nodup
            rw [List.map_append]
            refine List.nodup_append.mpr ⟨hstep.1.2.2.2.2, by simp, ?_⟩
            intro a ha hb
            simp only [List.map_cons, List.map_nil, List.mem_singleton] at hb
            subst hb
            refine hjid_not_visited ?_
            rw [hstep.1.2.2.1, List.mem_reverse]
            exact ha
        · -- DepsBefore of the result
          intro j' hj' t ht d hd
          rcases List.mem_append.mp hj' with hj' | hj'
          · obtain ⟨p, hp, hdp, hjp⟩ := hstep.2.1 j' hj' t ht d hd
            exact ⟨p, hp.trans (List.prefix_append _ _), hdp, hjp⟩
          · have heq := List.mem_singleton.mp hj'
            subst heq
            have hdid : d.id ∈ F.visited := hstep.2.2.2.2.1 t ht d hd
            have hdF : d ∈ F.sorted := mem_sorted_of_id_mem_visited jobs hstep.1 hids
              (List.mem_of_find?_eq_some hd) hdid
            exact ⟨F.sorted, List.prefix_append _ _, hdF, hjob_not_sorted⟩
        · exact hFprefix.trans (List.prefix_append _ _)
        · intro x hx
          rcases List.mem_cons.mp hx with rfl | hx
          · exact Or.inr hmem
          · rcases hstep.2.2.2.2.2 x hx with hx1 | hx1
            · exact Or.inl hx1
            · refine Or.inr fun hcon => hx1 ?_
              exact List.mem_cons_of_mem _ hcon

theorem topFold (jobs : List Job) (rank : Nat → Nat)
    (hids : (jobs.map Job.id).Nodup)
    (hrank : ∀ j ∈ jobs, ∀ t ∈ j.dependencies, ∀ d,
      jobs.find? (fun x => x.type == t) = some d → rank d.id < rank j.id) :
    ∀ (l : List Job) (s : TS), (∀ j ∈ l, j ∈ jobs) → TSInv jobs s → DepsBefore jobs s →
      s.visiting = [] →
      TSInv jobs (l.foldl (fun (s : TS) job =>
        if s.visited.contains job.id then s else visit jobs (jobs.length + 1) job s) s) ∧
      DepsBefore jobs (l.foldl (fun (s : TS) job =>
        if s.visited.contains job.id then s else visit jobs (jobs.length + 1) job s) s) ∧
      (l.foldl (fun (s : TS) job =>
        if s.visited.contains job.id then s else visit jobs (jobs.length + 1) job s) s).visiting
        = [] ∧
      s.sorted <+: (l.foldl (fun (s : TS) job =>
        if s.visited.contains job.id then s else visit jobs (jobs.length + 1) job s) s).sorted ∧
      (∀ j ∈ l, j.id ∈ (l.foldl (fun (s : TS) job =>
        if s.visited.contains job.id then s else visit jobs (jobs.length + 1) job s) s).visited) := by
  intro l
  induction l with
  | nil =>
    intro s hl hinv hdeps hvempty
    exact ⟨hinv, hdeps, hvempty, List.prefix_refl _, by simp⟩
  | cons job l ih =>
    intro s hl hinv hdeps hvempty
    simp only [List.foldl_cons]
    by_cases hc : (s.visited.contains job.id) = true
    · rw [if_pos hc]
      have hstep := ih s (fun j hj => hl j (by simp [hj])) hinv hdeps hvempty
      refine ⟨hstep.1, hstep.2.1, hstep.2.2.1, hstep.2.2.2.1, ?_⟩
      intro j hj
      rcases List.mem_cons.mp hj with rfl | hj
      · exact visited_mono jobs hinv hstep.1 hstep.2.2.2.1 j.id (by simpa using hc)
      · exact hstep.2.2.2.2 j hj
    · rw [if_neg hc]
      have hjob : job ∈ jobs := hl job (by simp)
      have hvisit := visitP_all jobs rank hids hrank (jobs.length + 1) job s hjob hinv hdeps
        (by rw [hvempty]; intro v hv; cases hv)
        (by rw [hvempty]; simp)
      have hstep := ih (visit jobs (jobs.length + 1) job s)
        (fun j hj => hl j (by simp [hj])) hvisit.1 hvisit.2.1
        (by rw [hvisit.2.2.1, hvempty])
      refine ⟨hstep.1, hstep.2.1, hstep.2.2.1, hvisit.2.2.2.1.trans hstep.2.2.2.1, ?_⟩
      intro j hj
      rcases List.mem_cons.mp hj with rfl | hj
      · exact visited_mono jobs hvisit.1 hstep.1 hstep.2.2.2.1 j.id hvisit.2.2.2.2.1
      · exact hstep.2.2.2.2 j hj

/-- C3 as amended.  For job lists with pairwise-distinct ids (as
`createJobs` produces) whose dependency graph is acyclic — witnessed by a
rank function that strictly decreases along each resolved dependency edge,
i.e. from a job to the FIRST job of each type it depends on — the list
returned by `resolveDependencies` is a permutation of the input, and every
job appears strictly after the first input job of every type it depends on
(a dependency type with no job in the list imposes no constraint, as does
any LATER duplicate of a depended-on type: see the counterexample). -/
theorem C3_topological_order (jobs : List Job) (rank : Nat → Nat)
    (hids : (jobs.map Job.id).Nodup)
    (hrank : ∀ j ∈ jobs, ∀ t ∈ j.dependencies, ∀ d,
      jobs.find? (fun x => x.type == t) = some d → rank d.id < rank j.id) :
    (resolveDependencies jobs).Perm jobs ∧
    ∀ j ∈ jobs, ∀ t ∈ j.dependencies, ∀ d, jobs.find? (fun x => x.type == t) = some d →
      ∃ p, p <+: resolveDependencies jobs ∧ d ∈ p ∧ j ∉ p := by
  have hinv0 : TSInv jobs ⟨[], [], []⟩ :=
    ⟨by simp, by simp, by simp, by simp, by simp⟩
  have hdeps0 : DepsBefore jobs ⟨[], [], []⟩ := by
    intro j hj
    cases hj
  have htop := topFold jobs rank hids hrank jobs ⟨[], [], []⟩ (fun j hj => hj) hinv0 hdeps0 rfl
  have hreq : resolveDependencies jobs = (jobs.foldl (fun (s : TS) job =>
      if s.visited.contains job.id then s else visit jobs (jobs.length + 1) job s)
      ⟨[], [], []⟩).sorted := rfl
  have hsub2 : ∀ j ∈ jobs, j ∈ resolveDependencies jobs := by
    intro j hj
    rw [hreq]
    exact mem_sorted_of_id_mem_visited jobs htop.1 hids hj (htop.2.2.2.2 j hj)
  constructor
  · have hnodup1 : (resolveDependencies jobs).Nodup := by
      rw [hreq]
      exact List.Nodup.of_map Job.id htop.1.2.2.2.2
    have hnodup2 : jobs.Nodup := List.Nodup.of_map Job.id hids
    have hsub1 : resolveDependencies jobs ⊆ jobs := by
      intro j hj
      rw [hreq] at hj
      exact htop.1.2.2.2.1 j hj
    exact (List.subperm_of_subset hnodup1 hsub1).antisymm
      (List.subperm_of_subset hnodup2 (fun j hj => hsub2 j hj))
  · intro j hj t ht d hd
    rw [hreq]
    exact htop.2.1 j (hsub2 j hj) t ht d hd

/-- C3 witness: the amended theorem applied to a two-job batch where job
`w3j` (id 1, type "y") depends on the type "x" of job `w3d` (id 0), with
the identity rank function. -/
theorem C3_topological_order_witness :
    (resolveDependencies [w3d, w3j]).Perm [w3d, w3j] ∧
    ∃ p, p <+: resolveDependencies [w3d, w3j] ∧ w3d ∈ p ∧ w3j ∉ p := by
  have hrank : ∀ j ∈ [w3d, w3j], ∀ t ∈ j.dependencies, ∀ d,
      [w3d, w3j].find? (fun x => x.type == t) = some d →
      (fun n => n) d.id < (fun n => n) j.id := by
    intro j hj t ht d hd
    rcases List.mem_cons.mp hj with rfl | hj
    · simp [w3d] at ht
    · have hj' : j = w3j := by simpa using hj
      subst hj'
      have ht' : t = "x" := by simpa [w3j] using ht
      subst ht'
      have hd' : d = w3d := by
        have : [w3d, w3j].find? (fun x => x.type == "x") = some w3d := rfl
        rw [this] at hd
        exact (Option.some_inj.mp hd).symm
      subst hd'
      decide
  have h := C3_topological_order [w3d, w3j] (fun n => n) (by decide) hrank
  exact ⟨h.1, h.2 w3j (by simp) "x" (by simp [w3j]) w3d rfl⟩
